import Mathlib

/-!
Verification of the er-save-manager repository core behaviors.

The byte-level collaborators (flag codec, save container load/serialize,
backup manager, checksum engine) are exercised by the UI mutation paths in
`src/er_save_manager/ui/tabs/event_flags_tab.py` and
`src/er_save_manager/ui/dialogs/preset_browser.py`.  Those mutation paths are
embedded here as pure functions over an explicit disk / save-file state, with
Python exceptions modelled by `Except` and the caught-exception handlers by
early returns.  Bytes are modelled as `Nat` (values below 256 in practice),
byte buffers as `List Nat`.
-/

namespace ERSave

/-- Error raised by the flag codec when a flag id addresses past the blob. -/
inductive CodecError where
  | outOfRange
  deriving DecidableEq, Repr

/-- Modelled from the spec: the flag codec's addressing function
(`parser/event_flags.py` is not in src/).  Byte offset of a flag id:
`flag_id div 8`. -/
def byteOffset (flagId : Nat) : Nat := flagId / 8

/-- Modelled from the spec: bit index of a flag id within its byte:
`flag_id mod 8`, lowest bit = lowest flag id in that byte. -/
def bitIndex (flagId : Nat) : Nat := flagId % 8

/-- Write bit `i` of byte `b` to value `v`, leaving every other bit as is
(flips bit `i` exactly when its current value differs from `v`). -/
def setBitTo (b : Nat) (i : Nat) (v : Bool) : Nat :=
  if b.testBit i = v then b else b ^^^ (2 ^ i)

/-- Modelled from the spec: `EventFlags.get_flag(blob, flag_id)` (codec source
not in src/): fails with `OutOfRangeError` if `byte_offset >= len(blob)`,
otherwise reads one bit. -/
def get_flag (blob : List Nat) (flagId : Nat) : Except CodecError Bool :=
  if byteOffset flagId < blob.length then
    .ok ((blob.getD (byteOffset flagId) 0).testBit (bitIndex flagId))
  else
    .error .outOfRange

/-- Modelled from the spec: `EventFlags.set_flag(blob, flag_id, value)` (codec
source not in src/): same bounds check as `get_flag`; sets or clears exactly
one bit.  In-place mutation is modelled by returning the new blob. -/
def set_flag (blob : List Nat) (flagId : Nat) (v : Bool) :
    Except CodecError (List Nat) :=
  if byteOffset flagId < blob.length then
    .ok (blob.set (byteOffset flagId)
      (setBitTo (blob.getD (byteOffset flagId) 0) (bitIndex flagId) v))
  else
    .error .outOfRange

theorem testBit_setBitTo_self (b i : Nat) (v : Bool) :
    (setBitTo b i v).testBit i = v := by
  unfold setBitTo
  by_cases h : b.testBit i = v
  · simp [h]
  · simp only [h, if_false, Nat.testBit_xor, Nat.testBit_two_pow_self]
    cases hb : b.testBit i <;> cases v <;> simp_all

theorem testBit_setBitTo_other (b i j : Nat) (v : Bool) (h : j ≠ i) :
    (setBitTo b i v).testBit j = b.testBit j := by
  unfold setBitTo
  by_cases hc : b.testBit i = v
  · simp [hc]
  · simp only [hc, if_false, Nat.testBit_xor]
    rw [Nat.testBit_two_pow_of_ne (fun he => h he.symm)]
    simp

theorem set_flag_length (blob blob' : List Nat) (fid : Nat) (v : Bool)
    (h : set_flag blob fid v = .ok blob') : blob'.length = blob.length := by
  unfold set_flag at h
  by_cases hr : byteOffset fid < blob.length
  · simp only [hr, if_true] at h
    cases h
    simp
  · simp [hr] at h

/-- Flag ids are in bijection with (byte, bit) addresses. -/
theorem addr_inj (f g : Nat) (hb : byteOffset f = byteOffset g)
    (hi : bitIndex f = bitIndex g) : f = g := by
  have hf := Nat.div_add_mod f 8
  have hg := Nat.div_add_mod g 8
  unfold byteOffset at hb
  unfold bitIndex at hi
  omega

theorem get_flag_set_flag_same (blob blob' : List Nat) (fid : Nat) (v : Bool)
    (h : set_flag blob fid v = .ok blob') : get_flag blob' fid = .ok v := by
  unfold set_flag at h
  by_cases hr : byteOffset fid < blob.length
  · simp only [hr, if_true] at h
    cases h
    unfold get_flag
    rw [if_pos (by simpa using hr)]
    rw [List.getD_eq_getElem?_getD, List.getElem?_set_self (by simpa using hr)]
    simp [testBit_setBitTo_self]
  · simp [hr] at h

theorem get_flag_set_flag_other (blob blob' : List Nat) (fid gid : Nat)
    (v : Bool) (hne : gid ≠ fid) (h : set_flag blob fid v = .ok blob') :
    get_flag blob' gid = get_flag blob gid := by
  unfold set_flag at h
  by_cases hr : byteOffset fid < blob.length
  · simp only [hr, if_true] at h
    cases h
    unfold get_flag
    by_cases hbyte : byteOffset gid = byteOffset fid
    · have hbit : bitIndex gid ≠ bitIndex fid := by
        intro hbit
        exact hne (addr_inj gid fid hbyte hbit)
      rw [hbyte]
      rw [if_pos (by simpa using hr), if_pos hr]
      rw [List.getD_eq_getElem?_getD, List.getElem?_set_self (by simpa using hr)]
      rw [List.getD_eq_getElem?_getD]
      simp [testBit_setBitTo_other _ _ _ _ hbit]
    · have hlen : (blob.set (byteOffset fid)
          (setBitTo (blob.getD (byteOffset fid) 0) (bitIndex fid) v)).length
          = blob.length := by simp
      rw [hlen]
      by_cases hg : byteOffset gid < blob.length
      · rw [if_pos hg, if_pos hg]
        rw [List.getD_eq_getElem?_getD, List.getElem?_set_ne (fun he => hbyte he.symm)]
        rw [List.getD_eq_getElem?_getD]
      · rw [if_neg hg, if_neg hg]
  · simp [hr] at h

/-- C5: for every blob, every in-range flag id and every boolean `v`,
`get_flag (set_flag blob fid v) fid = v`, the blob keeps its length, every
other byte is unchanged, and in the addressed byte the seven sibling bits are
unchanged. -/
theorem C5_set_get_roundtrip (blob : List Nat) (fid : Nat) (v : Bool)
    (h : byteOffset fid < blob.length) :
    ∃ blob', set_flag blob fid v = .ok blob' ∧
      get_flag blob' fid = .ok v ∧
      blob'.length = blob.length ∧
      (∀ k, k ≠ byteOffset fid → blob'.getD k 0 = blob.getD k 0) ∧
      (∀ j, j ≠ bitIndex fid →
        (blob'.getD (byteOffset fid) 0).testBit j
          = (blob.getD (byteOffset fid) 0).testBit j) := by
  refine ⟨blob.set (byteOffset fid)
    (setBitTo (blob.getD (byteOffset fid) 0) (bitIndex fid) v), ?_, ?_, ?_, ?_, ?_⟩
  · unfold set_flag
    rw [if_pos h]
  · exact get_flag_set_flag_same blob _ fid v (by unfold set_flag; rw [if_pos h])
  · simp
  · intro k hk
    rw [List.getD_eq_getElem?_getD, List.getElem?_set_ne (fun he => hk he.symm),
      List.getD_eq_getElem?_getD]
  · intro j hj
    rw [List.getD_eq_getElem?_getD, List.getElem?_set_self h]
    simp [testBit_setBitTo_other _ _ _ _ hj]

theorem C5_witness :
    byteOffset 11 < ([0, 0] : List Nat).length ∧
      ∃ blob', set_flag [0, 0] 11 true = .ok blob' ∧
        get_flag blob' 11 = .ok true ∧
        blob'.length = ([0, 0] : List Nat).length ∧
        (∀ k, k ≠ byteOffset 11 → blob'.getD k 0 = ([0, 0] : List Nat).getD k 0) ∧
        (∀ j, j ≠ bitIndex 11 →
          (blob'.getD (byteOffset 11) 0).testBit j
            = (([0, 0] : List Nat).getD (byteOffset 11) 0).testBit j) :=
  ⟨by decide, C5_set_get_roundtrip [0, 0] 11 true (by decide)⟩

/-- C6: on a flag id whose byte offset is at or past the end of the blob,
both `get_flag` and `set_flag` fail with `OutOfRangeError` (a typed error, no
out-of-bounds access) and `set_flag` produces no mutated blob. -/
theorem C6_out_of_range (blob : List Nat) (fid : Nat)
    (h : blob.length ≤ byteOffset fid) :
    get_flag blob fid = .error .outOfRange ∧
      ∀ v, set_flag blob fid v = .error .outOfRange := by
  constructor
  · unfold get_flag
    rw [if_neg (by omega)]
  · intro v
    unfold set_flag
    rw [if_neg (by omega)]

theorem C6_witness :
    ([0, 0] : List Nat).length ≤ byteOffset 16 ∧
      (get_flag [0, 0] 16 = .error .outOfRange ∧
        ∀ v, set_flag [0, 0] 16 v = .error .outOfRange) :=
  ⟨by decide, C6_out_of_range [0, 0] 16 (by decide)⟩

/-- Load-time failure of the save container. -/
inductive FormatError where
  | tooShort
  | badMarker
  deriving DecidableEq, Repr

/-- Raw view of the save container used by `load` / `serialize`: the whole
file image, owned verbatim. -/
structure RawContainer where
  rawBytes : List Nat
  deriving DecidableEq, Repr

/-- Modelled from the spec: the structural marker checked by `load` (the
parser source is not in src/; the spec leaves the marker value unspecified, a
four-byte magic is used here as a representative constant). -/
def MARKER : List Nat := [66, 78, 68, 52]

/-- Modelled from the spec: the minimum file length checked by `load` (value
unspecified by the spec; representative constant). -/
def MIN_SIZE : Nat := 16

/-- Modelled from the spec: `load(bytes)` validates a minimum length and a
structural marker, failing with `FormatError` otherwise, and stores the input
bytes as the container's raw buffer. -/
def load (bytes : List Nat) : Except FormatError RawContainer :=
  if bytes.length < MIN_SIZE then .error .tooShort
  else if bytes.take MARKER.length = MARKER then .ok ⟨bytes⟩
  else .error .badMarker

/-- Modelled from the spec: `serialize()` returns `raw_bytes` verbatim and
does not itself recompute checksums. -/
def serialize (c : RawContainer) : List Nat := c.rawBytes

/-- C7: for every byte sequence that `load` accepts, serializing the loaded
container with no intervening mutation returns exactly the input bytes. -/
theorem C7_roundtrip (bytes : List Nat) (c : RawContainer)
    (h : load bytes = .ok c) : serialize c = bytes := by
  unfold load at h
  by_cases h1 : bytes.length < MIN_SIZE
  · simp [h1] at h
  · by_cases h2 : bytes.take MARKER.length = MARKER
    · simp only [h1, if_false, h2, if_true] at h
      cases h
      rfl
    · simp [h1, h2] at h

theorem C7_witness :
    load (MARKER ++ List.replicate 12 0)
        = .ok ⟨MARKER ++ List.replicate 12 0⟩ ∧
      serialize ⟨MARKER ++ List.replicate 12 0⟩ = MARKER ++ List.replicate 12 0 :=
  ⟨by rfl, C7_roundtrip _ _ (by rfl)⟩

/-- Release metadata fetched from the GitHub API, as read by
`VersionChecker.check_for_updates`: `data.get("tag_name", "")` and
`data.get("html_url", GITHUB_RELEASES_URL)` model absent keys with `none`. -/
structure ReleaseData where
  tagName : Option String
  htmlUrl : Option String

/-- The fallback releases-page URL from `version_checker.py`. -/
def GITHUB_RELEASES_URL : String :=
  "https://github.com/Hapfel1/er-save-manager/releases"

/-- Python's `tag_name.lstrip("v")`: drop every leading `v`. -/
def lstripV (s : String) : String := String.mk (s.data.dropWhile (· = 'v'))

/-- Split a character list on the dot separators, Python `s.split(".")`. -/
def splitDots : List Char → List (List Char)
  | [] => [[]]
  | c :: rest =>
    if c = '.' then [] :: splitDots rest
    else
      match splitDots rest with
      | [] => [[c]]
      | g :: gs => (c :: g) :: gs

/-- Parse one dotted component: nonempty and all digits. -/
def parseComp (cs : List Char) : Option Nat :=
  if cs ≠ [] ∧ cs.all Char.isDigit then
    some (cs.foldl (fun n c => n * 10 + (c.toNat - 48)) 0)
  else
    none

/-- Model of `packaging.version.Version` parsing, restricted to dotted
numeric versions such as `0.7.4`: any other shape fails (raising in Python,
`none` here). -/
def parseVersion (s : String) : Option (List Nat) :=
  (splitDots s.data).mapM parseComp

/-- Model of `packaging.version.Version` strict comparison: lexicographic on
the numeric components, a missing component comparing as zero. -/
def verLt : List Nat → List Nat → Bool
  | [], b => b.any (0 < ·)
  | a :: as, [] => if a = 0 then verLt as [] else false
  | a :: as, b :: bs => if a < b then true else if b < a then false else verLt as bs

/-- Embedding of `VersionChecker.check_for_updates`
(`version_checker.py` lines 25-74).  The network fetch plus JSON decode is an
input: `.error` is any exception caught by the outer handler.  The function is
total: every failure maps to a returned triple, never an uncaught exception. -/
def check_for_updates (currentVersion : String)
    (fetch : Except Unit ReleaseData) : Bool × Option String × Option String :=
  match fetch with
  | .error _ => (false, none, none)
  | .ok data =>
    let tagName := data.tagName.getD ""
    let latestVersion := lstripV tagName
    if latestVersion = "" then (false, none, none)
    else
      match parseVersion currentVersion, parseVersion latestVersion with
      | some current, some latest =>
        if verLt current latest then
          (true, some latestVersion, some (data.htmlUrl.getD GITHUB_RELEASES_URL))
        else
          (false, some latestVersion, none)
      | _, _ => (false, none, none)

/-- C9: `check_for_updates` never raises (it is a total function into result
triples); on any fetch/parse/comparison failure it returns
`(false, none, none)`; and it reports an update exactly when the fetched tag
and the current version both parse and the tag is strictly newer, in which
case it also returns the latest version string and a download URL. -/
theorem C9_check_for_updates (cv : String) (fetch : Except Unit ReleaseData) :
    (∀ e, fetch = .error e → check_for_updates cv fetch = (false, none, none)) ∧
      ((check_for_updates cv fetch).1 = true ↔
        ∃ d, fetch = .ok d ∧
          ∃ cl ll, parseVersion cv = some cl ∧
            parseVersion (lstripV (d.tagName.getD "")) = some ll ∧
            verLt cl ll = true) ∧
      ((check_for_updates cv fetch).1 = true →
        ∃ d, fetch = .ok d ∧
          check_for_updates cv fetch
            = (true, some (lstripV (d.tagName.getD "")),
                some (d.htmlUrl.getD GITHUB_RELEASES_URL))) := by
  refine ⟨?_, ?_, ?_⟩
  · intro e he
    rw [he]
    rfl
  · cases fetch with
    | error e => simp [check_for_updates]
    | ok d =>
      simp only [check_for_updates]
      by_cases h0 : lstripV (d.tagName.getD "") = ""
      · rw [if_pos h0]
        constructor
        · intro h
          simp at h
        · rintro ⟨d', hd', cl, ll, hc', hl', hlt'⟩
          cases hd'
          rw [h0, show parseVersion "" = (none : Option (List Nat)) from rfl] at hl'
          cases hl'
      · rw [if_neg h0]
        generalize hc : parseVersion cv = pc
        generalize hl : parseVersion (lstripV (d.tagName.getD "")) = pl
        cases pc with
        | none =>
          cases pl with
          | none =>
            constructor
            · intro h
              simp at h
            · rintro ⟨d', hd', cl', ll', hc', hl', hlt'⟩
              cases hd'
              cases hc'
          | some ll =>
            constructor
            · intro h
              simp at h
            · rintro ⟨d', hd', cl', ll', hc', hl', hlt'⟩
              cases hd'
              cases hc'
        | some cl =>
          cases pl with
          | none =>
            constructor
            · intro h
              simp at h
            · rintro ⟨d', hd', cl', ll', hc', hl', hlt'⟩
              cases hd'
              cases hc'
              rw [hl] at hl'
              cases hl'
          | some ll =>
            constructor
            · intro h
              by_cases hlt : verLt cl ll = true
              · exact ⟨d, rfl, cl, ll, rfl, hl, hlt⟩
              · simp [hlt] at h
            · rintro ⟨d', hd', cl', ll', hc', hl', hlt'⟩
              cases hd'
              cases hc'
              rw [hl] at hl'
              cases hl'
              simp [hlt']
  · cases fetch with
    | error e => intro h; simp [check_for_updates] at h
    | ok d =>
      intro h
      refine ⟨d, rfl, ?_⟩
      simp only [check_for_updates] at h ⊢
      by_cases h0 : lstripV (d.tagName.getD "") = ""
      · rw [if_pos h0] at h
        simp at h
      · rw [if_neg h0] at h ⊢
        generalize hc : parseVersion cv = pc at h ⊢
        generalize hl : parseVersion (lstripV (d.tagName.getD "")) = pl at h ⊢
        cases pc with
        | none =>
          cases pl with
          | none => simp at h
          | some ll => simp at h
        | some cl =>
          cases pl with
          | none => simp at h
          | some ll =>
            by_cases hlt : verLt cl ll = true
            · simp [hlt]
            · simp [hlt] at h

theorem C9_witness :
    check_for_updates "0.7.4" (.error ()) = (false, none, none) :=
  (C9_check_for_updates "0.7.4" (.error ())).1 () rfl

/-! ### The UI mutation paths

`EventFlagsTab._apply_advanced_flags`, `EventFlagsTab.apply_changes`
(`ui/tabs/event_flags_tab.py`) and `PresetBrowserDialog.apply_current_preset`
(`ui/dialogs/preset_browser.py`) are embedded as pure functions.  The on-disk
world is a `Disk`; a Python exception caught by the enclosing
`try/except` handler is modelled by an early return that leaves the disk
untouched.  Each path also emits the sequence of core-API events it performs,
in order. -/

/-- One core-API event performed by a mutation path: a buffer mutation (a
`set_flag` call or the blob write-back or a preset application), a
`recalculate_checksums` call, a successful `create_backup`, or a successful
write of the file to disk. -/
inductive Event where
  | mutate
  | recalc
  | backup
  | write
  deriving DecidableEq, Repr

/-- The on-disk world: the save file's current bytes (`none` when there is no
file at the path) and the backup store's copies, most recent first. -/
structure Disk where
  file : Option (List Nat)
  backups : List (List Nat)
  deriving DecidableEq, Repr

/-- Modelled from the spec: `BackupManager.create_backup`
(`backup/manager.py` is not in src/): reads the current on-disk bytes and
stores a full copy in the backup store; fails with `IOError` when the source
file is unreadable.  `ioFail` models any other I/O failure during the
snapshot. -/
def create_backup (disk : Disk) (ioFail : Bool) : Except Unit Disk :=
  if ioFail then .error ()
  else
    match disk.file with
    | none => .error ()
    | some bytes => .ok { disk with backups := bytes :: disk.backups }

/-- Modelled from the spec: `SaveFile.to_file(path)` (save container source
not in src/): serializes `raw_bytes` verbatim and overwrites the target path.
Called with `save_path = None` (no path known, `savePath = false`) it raises
before writing anything, as `open(None)` does. -/
def to_file (disk : Disk) (savePath : Bool) (raw : List Nat) :
    Except Unit Disk :=
  if savePath then .ok { disk with file := some raw } else .error ()

/-- One character slot as the mutation paths see it: the slot's flag-blob
copy and `event_flags_offset` (`none` models a slot object without the
attribute, mirroring the `hasattr` guard). -/
structure CharacterSlot where
  eventFlags : List Nat
  eventFlagsOffset : Option Int
  deriving DecidableEq, Repr, Inhabited

/-- The in-memory save file as the mutation paths see it: `_raw_data`,
`_slot_offsets` and the `characters` list. -/
structure SaveFile where
  rawData : List Nat
  slotOffsets : List Nat
  characters : List CharacterSlot
  deriving DecidableEq, Repr

/-- Python `raw[a : a + len(repl)] = repl` on a `bytearray`: replaces the
byte range starting at `a` (clamped to the end) by `repl`; when the range
runs past the end the buffer grows. -/
def spliceAt (raw : List Nat) (a : Nat) (repl : List Nat) : List Nat :=
  raw.take a ++ repl ++ raw.drop (a + repl.length)

/-- The write-back step shared by both flag paths (`event_flags_tab.py`
lines 601-606 and 678-683): when the slot records a nonnegative
`event_flags_offset`, splice the blob copy into `_raw_data` at
`slot_offset + 0x10 + event_flags_offset`; an `IndexError` on
`_slot_offsets` propagates to the enclosing handler.  Returns the updated
save and whether a splice was performed. -/
def writeBackStep (save : SaveFile) (slotIdx : Nat) (blob : List Nat) :
    Except Unit (SaveFile × Bool) :=
  match (save.characters.getD slotIdx default).eventFlagsOffset with
  | some off =>
    if 0 ≤ off then
      if h : slotIdx < save.slotOffsets.length then
        let a := save.slotOffsets.get ⟨slotIdx, h⟩ + 0x10 + off.toNat
        .ok ({ save with rawData := spliceAt save.rawData a blob }, true)
      else
        .error ()
    else
      .ok (save, false)
  | none => .ok (save, false)

/-- Python `sorted(set(flag_ids))`: iteration order of the advanced loop.
Insertion sort over the deduplicated ids. -/
def insertSorted (x : Nat) : List Nat → List Nat
  | [] => [x]
  | y :: ys => if x ≤ y then x :: y :: ys else y :: insertSorted x ys

/-- Sort a list of flag ids ascending. -/
def sortNat : List Nat → List Nat
  | [] => []
  | x :: xs => insertSorted x (sortNat xs)

/-- The advanced-editor application loop (`event_flags_tab.py` lines
591-598): each `set_flag` is individually guarded, a failure is logged and
skipped, a success increments `success_count`.  Returns the final blob and
the success count. -/
def applyLoop (v : Bool) : List Nat → List Nat → List Nat × Nat
  | [], blob => (blob, 0)
  | fid :: rest, blob =>
    match set_flag blob fid v with
    | .ok blob' =>
      let r := applyLoop v rest blob'
      (r.1, r.2 + 1)
    | .error _ => applyLoop v rest blob

/-- The `apply_changes` application loop (`event_flags_tab.py` lines
675-676): no per-flag guard, so a `set_flag` failure aborts the whole batch
(propagating to the enclosing handler).  Also returns how many mutations
happened before the abort. -/
def applyChangesLoop :
    List (Nat × Bool) → List Nat → Except CodecError (List Nat) × Nat
  | [], blob => (.ok blob, 0)
  | (fid, v) :: rest, blob =>
    match set_flag blob fid v with
    | .ok blob' =>
      let r := applyChangesLoop rest blob'
      (r.1, r.2 + 1)
    | .error e => (.error e, 0)

/-- The change-set predicate of `apply_changes` (`event_flags_tab.py` lines
637-645): a requested `(flag_id, new_value)` pair is kept exactly when the
stored value reads successfully and differs; a read failure excludes the
pair. -/
def changeNeeded (blob : List Nat) (p : Nat × Bool) : Bool :=
  match get_flag blob p.1 with
  | .ok cur => cur != p.2
  | .error _ => false

/-- The change set computed by `apply_changes`. -/
def computeChanges (blob : List Nat) (requested : List (Nat × Bool)) :
    List (Nat × Bool) :=
  requested.filter (changeNeeded blob)

/-- Result of one run of a mutation path: the in-memory save, the disk, the
event trace, and the aggregate count(s) reported to the user on success
(`none` when the success message was never reached). -/
structure AdvOut where
  save : SaveFile
  disk : Disk
  trace : List Event
  reported : Option (Nat × Nat)
  deriving DecidableEq, Repr

/-- Embedding of `EventFlagsTab._apply_advanced_flags` (`event_flags_tab.py`
lines 538-622).  `blob` is `self.current_event_flags`, `confirmed` the
`askyesno` answer, `savePath` whether `get_save_path()` returned a path,
`ioFail` whether the backup snapshot fails, `recalc` the (unspecified)
checksum engine pass over the raw buffer. -/
def applyAdvancedFlags (recalc : List Nat → List Nat) (save : SaveFile)
    (slotIdx : Nat) (blob : List Nat) (flagIds : List Nat) (state : Bool)
    (confirmed savePath ioFail : Bool) (disk : Disk) : AdvOut :=
  if flagIds = [] then ⟨save, disk, [], none⟩
  else if save.characters.length ≤ slotIdx then ⟨save, disk, [], none⟩
  else if ¬confirmed then ⟨save, disk, [], none⟩
  else
    match (cond savePath (create_backup disk ioFail) (.ok disk)) with
    | .error _ => ⟨save, disk, [], none⟩
    | .ok disk1 =>
      match writeBackStep save slotIdx
          (applyLoop state (sortNat flagIds.dedup) blob).1 with
      | .error _ =>
        ⟨save, disk1,
          cond savePath [Event.backup] []
            ++ List.replicate (applyLoop state (sortNat flagIds.dedup) blob).2
              Event.mutate,
          none⟩
      | .ok (save1, wb) =>
        match to_file disk1 savePath (recalc save1.rawData) with
        | .error _ =>
          ⟨{ save1 with rawData := recalc save1.rawData }, disk1,
            cond savePath [Event.backup] []
              ++ List.replicate (applyLoop state (sortNat flagIds.dedup) blob).2
                Event.mutate
              ++ cond wb [Event.mutate] [] ++ [Event.recalc],
            none⟩
        | .ok disk2 =>
          ⟨{ save1 with rawData := recalc save1.rawData }, disk2,
            cond savePath [Event.backup] []
              ++ List.replicate (applyLoop state (sortNat flagIds.dedup) blob).2
                Event.mutate
              ++ cond wb [Event.mutate] [] ++ [Event.recalc, Event.write],
            some ((applyLoop state (sortNat flagIds.dedup) blob).2,
              flagIds.length)⟩

/-- Result of one `apply_changes` run; `reported` is the applied-changes
count shown on success. -/
structure ChOut where
  save : SaveFile
  disk : Disk
  trace : List Event
  reported : Option Nat
  deriving DecidableEq, Repr

/-- Embedding of `EventFlagsTab.apply_changes` (`event_flags_tab.py` lines
624-700).  `requested` is the `flag_states` checkbox map as (flag id,
requested value) pairs in insertion order. -/
def applyChanges (recalc : List Nat → List Nat) (save : SaveFile)
    (slotIdx : Nat) (blob : List Nat) (requested : List (Nat × Bool))
    (confirmed savePath ioFail : Bool) (disk : Disk) : ChOut :=
  if requested = [] then ⟨save, disk, [], none⟩
  else if save.characters.length ≤ slotIdx then ⟨save, disk, [], none⟩
  else
    let changes := computeChanges blob requested
    if changes = [] then ⟨save, disk, [], none⟩
    else if ¬confirmed then ⟨save, disk, [], none⟩
    else
      match (cond savePath (create_backup disk ioFail) (.ok disk)) with
      | .error _ => ⟨save, disk, [], none⟩
      | .ok disk1 =>
        match (applyChangesLoop changes blob).1 with
        | .error _ =>
          ⟨save, disk1,
            cond savePath [Event.backup] []
              ++ List.replicate (applyChangesLoop changes blob).2 Event.mutate,
            none⟩
        | .ok blob1 =>
          match writeBackStep save slotIdx blob1 with
          | .error _ =>
            ⟨save, disk1,
              cond savePath [Event.backup] []
                ++ List.replicate (applyChangesLoop changes blob).2 Event.mutate,
              none⟩
          | .ok (save1, wb) =>
            match to_file disk1 savePath (recalc save1.rawData) with
            | .error _ =>
              ⟨{ save1 with rawData := recalc save1.rawData }, disk1,
                cond savePath [Event.backup] []
                  ++ List.replicate (applyChangesLoop changes blob).2 Event.mutate
                  ++ cond wb [Event.mutate] [] ++ [Event.recalc],
                none⟩
            | .ok disk2 =>
              ⟨{ save1 with rawData := recalc save1.rawData }, disk2,
                cond savePath [Event.backup] []
                  ++ List.replicate (applyChangesLoop changes blob).2 Event.mutate
                  ++ cond wb [Event.mutate] [] ++ [Event.recalc, Event.write],
                some changes.length⟩

/-- Result of one `apply_current_preset` run. -/
structure PresetOut where
  save : SaveFile
  disk : Disk
  trace : List Event
  applied : Bool
  deriving DecidableEq, Repr

/-- Embedding of `PresetBrowserDialog.apply_current_preset`
(`preset_browser.py` lines 431-501).  `applyPreset` is the (unspecified)
`PresetManager.apply_preset_to_character` buffer edit, `none` modelling its
`False` / failure result; `hasPreset`, `havePresetData` and `haveCharacter`
model the early-return guards. -/
def applyCurrentPreset (recalc : List Nat → List Nat)
    (applyPreset : SaveFile → Option SaveFile) (save : SaveFile)
    (hasPreset confirmed havePresetData haveCharacter savePath ioFail : Bool)
    (disk : Disk) : PresetOut :=
  if ¬hasPreset then ⟨save, disk, [], false⟩
  else if ¬confirmed then ⟨save, disk, [], false⟩
  else if ¬havePresetData then ⟨save, disk, [], false⟩
  else if ¬haveCharacter then ⟨save, disk, [], false⟩
  else
    match (cond savePath (create_backup disk ioFail) (.ok disk)) with
    | .error _ => ⟨save, disk, [], false⟩
    | .ok disk1 =>
      match applyPreset save with
      | none => ⟨save, disk1, cond savePath [Event.backup] [], false⟩
      | some save1 =>
        match to_file disk1 savePath (recalc save1.rawData) with
        | .error _ =>
          ⟨{ save1 with rawData := recalc save1.rawData }, disk1,
            cond savePath [Event.backup] [] ++ [Event.mutate, Event.recalc],
            false⟩
        | .ok disk2 =>
          ⟨{ save1 with rawData := recalc save1.rawData }, disk2,
            cond savePath [Event.backup] []
              ++ [Event.mutate, Event.recalc, Event.write],
            true⟩

/-! ### Trace disciplines -/

/-- Decidable check of the recompute-checksums discipline over a trace:
scanning left to right with a pending-mutation bit, a write is allowed only
when no mutation happened since the last `recalculate_checksums`. -/
def recalcOrder : List Event → Bool → Bool
  | [], _ => true
  | Event.mutate :: r, _ => recalcOrder r true
  | Event.recalc :: r, _ => recalcOrder r false
  | Event.write :: r, pending => !pending && recalcOrder r pending
  | Event.backup :: r, pending => recalcOrder r pending

/-- Decidable check of the backup-before-write discipline: every write event
is preceded by a successful backup event. -/
def backupOrder : List Event → Bool → Bool
  | [], _ => true
  | Event.backup :: r, _ => backupOrder r true
  | Event.write :: r, seen => seen && backupOrder r seen
  | Event.mutate :: r, seen => backupOrder r seen
  | Event.recalc :: r, seen => backupOrder r seen

theorem recalcOrder_replicate_mutate (k : Nat) (r : List Event) (p : Bool)
    (h : ∀ q, recalcOrder r q = true) :
    recalcOrder (List.replicate k Event.mutate ++ r) p = true := by
  induction k generalizing p with
  | zero => simpa using h p
  | succ n ih => simpa [List.replicate_succ, recalcOrder] using ih true

theorem backupOrder_of_seen (r : List Event) : backupOrder r true = true := by
  induction r with
  | nil => rfl
  | cons e rest ih => cases e <;> simp [backupOrder, ih]

theorem backupOrder_replicate_mutate (k : Nat) (r : List Event) (p : Bool) :
    backupOrder (List.replicate k Event.mutate ++ r) p = backupOrder r p := by
  induction k with
  | zero => rfl
  | succ n ih => simpa [List.replicate_succ, backupOrder] using ih

theorem create_backup_ok (disk disk1 : Disk) (ioFail : Bool)
    (h : create_backup disk ioFail = .ok disk1) :
    ioFail = false ∧ ∃ b, disk.file = some b ∧
      disk1 = ⟨some b, b :: disk.backups⟩ := by
  unfold create_backup at h
  by_cases hf : ioFail
  · simp [hf] at h
  · rcases hd : disk.file with _ | b
    · rw [if_neg hf, hd] at h
      cases h
    · rw [if_neg hf, hd] at h
      cases h
      refine ⟨by simpa using hf, b, rfl, ?_⟩
      cases disk
      simp_all

theorem to_file_ok (disk disk' : Disk) (savePath : Bool) (raw : List Nat)
    (h : to_file disk savePath raw = .ok disk') :
    savePath = true ∧ disk' = ⟨some raw, disk.backups⟩ := by
  unfold to_file at h
  by_cases hs : savePath
  · rw [if_pos hs] at h
    cases h
    cases disk
    simp_all
  · simp [hs] at h

theorem to_file_file (disk disk' : Disk) (savePath : Bool) (raw : List Nat)
    (h : to_file disk savePath raw = .ok disk') : disk'.file = some raw := by
  rcases to_file_ok disk disk' savePath raw h with ⟨-, rfl⟩
  rfl

theorem adv_cases (recalc : List Nat → List Nat) (save : SaveFile)
    (slotIdx : Nat) (blob : List Nat) (flagIds : List Nat)
    (state confirmed savePath ioFail : Bool) (disk : Disk) :
    applyAdvancedFlags recalc save slotIdx blob flagIds state confirmed
        savePath ioFail disk = ⟨save, disk, [], none⟩
    ∨ (∃ disk1 bT,
        ((savePath = true ∧ create_backup disk ioFail = .ok disk1 ∧
            bT = [Event.backup])
          ∨ (savePath = false ∧ disk1 = disk ∧ bT = ([] : List Event))) ∧
        (applyAdvancedFlags recalc save slotIdx blob flagIds state confirmed
              savePath ioFail disk
            = ⟨save, disk1,
                bT ++ List.replicate
                  (applyLoop state (sortNat flagIds.dedup) blob).2 Event.mutate,
                none⟩
          ∨ (∃ save1 wb,
              writeBackStep save slotIdx
                  (applyLoop state (sortNat flagIds.dedup) blob).1
                = .ok (save1, wb) ∧
              ((savePath = false ∧
                 applyAdvancedFlags recalc save slotIdx blob flagIds state
                     confirmed savePath ioFail disk
                   = ⟨{ save1 with rawData := recalc save1.rawData }, disk1,
                       bT ++ List.replicate
                         (applyLoop state (sortNat flagIds.dedup) blob).2
                         Event.mutate
                         ++ cond wb [Event.mutate] [] ++ [Event.recalc],
                       none⟩)
                ∨ (savePath = true ∧
                   applyAdvancedFlags recalc save slotIdx blob flagIds state
                       confirmed savePath ioFail disk
                     = ⟨{ save1 with rawData := recalc save1.rawData },
                         ⟨some (recalc save1.rawData), disk1.backups⟩,
                         bT ++ List.replicate
                           (applyLoop state (sortNat flagIds.dedup) blob).2
                           Event.mutate
                           ++ cond wb [Event.mutate] []
                           ++ [Event.recalc, Event.write],
                         some ((applyLoop state (sortNat flagIds.dedup) blob).2,
                           flagIds.length)⟩))))) := by
  unfold applyAdvancedFlags
  by_cases h1 : flagIds = []
  · rw [if_pos h1]
    exact Or.inl rfl
  rw [if_neg h1]
  by_cases h2 : save.characters.length ≤ slotIdx
  · rw [if_pos h2]
    exact Or.inl rfl
  rw [if_neg h2]
  by_cases h3 : confirmed = true
  · rw [if_neg (by simp [h3])]
    cases savePath with
    | false =>
      refine Or.inr ⟨disk, [], Or.inr ⟨rfl, rfl, rfl⟩, ?_⟩
      rcases hwb : writeBackStep save slotIdx
          (applyLoop state (sortNat flagIds.dedup) blob).1 with e | ⟨save1, wb⟩
      · exact Or.inl rfl
      · exact Or.inr ⟨save1, wb, rfl, Or.inl ⟨rfl, rfl⟩⟩
    | true =>
      rcases hcb : create_backup disk ioFail with e | disk1
      · exact Or.inl rfl
      · refine Or.inr ⟨disk1, [Event.backup], Or.inl ⟨rfl, rfl, rfl⟩, ?_⟩
        rcases hwb : writeBackStep save slotIdx
            (applyLoop state (sortNat flagIds.dedup) blob).1 with e | ⟨save1, wb⟩
        · exact Or.inl rfl
        · exact Or.inr ⟨save1, wb, rfl, Or.inr ⟨rfl, rfl⟩⟩
  · rw [if_pos (by simp [h3])]
    exact Or.inl rfl



theorem ch_cases (recalc : List Nat → List Nat) (save : SaveFile)
    (slotIdx : Nat) (blob : List Nat) (requested : List (Nat × Bool))
    (confirmed savePath ioFail : Bool) (disk : Disk) :
    applyChanges recalc save slotIdx blob requested confirmed savePath ioFail
        disk = ⟨save, disk, [], none⟩
    ∨ (∃ disk1 bT,
        ((savePath = true ∧ create_backup disk ioFail = .ok disk1 ∧
            bT = [Event.backup])
          ∨ (savePath = false ∧ disk1 = disk ∧ bT = ([] : List Event))) ∧
        (applyChanges recalc save slotIdx blob requested confirmed savePath
              ioFail disk
            = ⟨save, disk1,
                bT ++ List.replicate
                  (applyChangesLoop (computeChanges blob requested) blob).2
                  Event.mutate,
                none⟩
          ∨ (∃ blob1 save1 wb,
              (applyChangesLoop (computeChanges blob requested) blob).1
                = .ok blob1 ∧
              writeBackStep save slotIdx blob1 = .ok (save1, wb) ∧
              ((savePath = false ∧
                 applyChanges recalc save slotIdx blob requested confirmed
                     savePath ioFail disk
                   = ⟨{ save1 with rawData := recalc save1.rawData }, disk1,
                       bT ++ List.replicate
                         (applyChangesLoop (computeChanges blob requested)
                           blob).2 Event.mutate
                         ++ cond wb [Event.mutate] [] ++ [Event.recalc],
                       none⟩)
                ∨ (savePath = true ∧
                   applyChanges recalc save slotIdx blob requested confirmed
                       savePath ioFail disk
                     = ⟨{ save1 with rawData := recalc save1.rawData },
                         ⟨some (recalc save1.rawData), disk1.backups⟩,
                         bT ++ List.replicate
                           (applyChangesLoop (computeChanges blob requested)
                             blob).2 Event.mutate
                           ++ cond wb [Event.mutate] []
                           ++ [Event.recalc, Event.write],
                         some (computeChanges blob requested).length⟩))))) := by
  unfold applyChanges
  by_cases h1 : requested = []
  · rw [if_pos h1]
    exact Or.inl rfl
  rw [if_neg h1]
  by_cases h2 : save.characters.length ≤ slotIdx
  · rw [if_pos h2]
    exact Or.inl rfl
  rw [if_neg h2]
  by_cases h3 : computeChanges blob requested = []
  · rw [if_pos h3]
    exact Or.inl rfl
  rw [if_neg h3]
  by_cases h4 : confirmed = true
  · rw [if_neg (by simp [h4])]
    cases savePath with
    | false =>
      refine Or.inr ⟨disk, [], Or.inr ⟨rfl, rfl, rfl⟩, ?_⟩
      rcases hlp : (applyChangesLoop (computeChanges blob requested) blob).1
          with e | blob1
      · exact Or.inl rfl
      · rcases hwb : writeBackStep save slotIdx blob1 with e | ⟨save1, wb⟩
        · left
          simp only [hwb]
          rfl
        · refine Or.inr ⟨blob1, save1, wb, rfl, hwb, Or.inl ⟨rfl, ?_⟩⟩
          simp only [hwb]
          rfl
    | true =>
      rcases hcb : create_backup disk ioFail with e | disk1
      · exact Or.inl rfl
      · refine Or.inr ⟨disk1, [Event.backup], Or.inl ⟨rfl, rfl, rfl⟩, ?_⟩
        rcases hlp : (applyChangesLoop (computeChanges blob requested) blob).1
            with e | blob1
        · exact Or.inl rfl
        · rcases hwb : writeBackStep save slotIdx blob1 with e | ⟨save1, wb⟩
          · left
            simp only [hwb]
            rfl
          · refine Or.inr ⟨blob1, save1, wb, rfl, hwb, Or.inr ⟨rfl, ?_⟩⟩
            simp only [hwb]
            rfl
  · rw [if_pos (by simp [h4])]
    exact Or.inl rfl

theorem preset_cases (recalc : List Nat → List Nat)
    (applyPreset : SaveFile → Option SaveFile) (save : SaveFile)
    (hasPreset confirmed havePresetData haveCharacter savePath ioFail : Bool)
    (disk : Disk) :
    applyCurrentPreset recalc applyPreset save hasPreset confirmed
        havePresetData haveCharacter savePath ioFail disk
      = ⟨save, disk, [], false⟩
    ∨ (∃ disk1 bT,
        ((savePath = true ∧ create_backup disk ioFail = .ok disk1 ∧
            bT = [Event.backup])
          ∨ (savePath = false ∧ disk1 = disk ∧ bT = ([] : List Event))) ∧
        (applyCurrentPreset recalc applyPreset save hasPreset confirmed
              havePresetData haveCharacter savePath ioFail disk
            = ⟨save, disk1, bT, false⟩
          ∨ (∃ save1, applyPreset save = some save1 ∧
              ((savePath = false ∧
                 applyCurrentPreset recalc applyPreset save hasPreset confirmed
                     havePresetData haveCharacter savePath ioFail disk
                   = ⟨{ save1 with rawData := recalc save1.rawData }, disk1,
                       bT ++ [Event.mutate, Event.recalc], false⟩)
                ∨ (savePath = true ∧
                   applyCurrentPreset recalc applyPreset save hasPreset
                       confirmed havePresetData haveCharacter savePath ioFail
                       disk
                     = ⟨{ save1 with rawData := recalc save1.rawData },
                         ⟨some (recalc save1.rawData), disk1.backups⟩,
                         bT ++ [Event.mutate, Event.recalc, Event.write],
                         true⟩))))) := by
  unfold applyCurrentPreset
  by_cases h1 : hasPreset = true
  · rw [if_neg (by simp [h1])]
    by_cases h2 : confirmed = true
    · rw [if_neg (by simp [h2])]
      by_cases h3 : havePresetData = true
      · rw [if_neg (by simp [h3])]
        by_cases h4 : haveCharacter = true
        · rw [if_neg (by simp [h4])]
          cases savePath with
          | false =>
            refine Or.inr ⟨disk, [], Or.inr ⟨rfl, rfl, rfl⟩, ?_⟩
            rcases hap : applyPreset save with _ | save1
            · exact Or.inl rfl
            · exact Or.inr ⟨save1, rfl, Or.inl ⟨rfl, rfl⟩⟩
          | true =>
            rcases hcb : create_backup disk ioFail with e | disk1
            · exact Or.inl rfl
            · refine Or.inr ⟨disk1, [Event.backup], Or.inl ⟨rfl, rfl, rfl⟩, ?_⟩
              rcases hap : applyPreset save with _ | save1
              · exact Or.inl rfl
              · exact Or.inr ⟨save1, rfl, Or.inr ⟨rfl, rfl⟩⟩
        · rw [if_pos (by simp [h4])]
          exact Or.inl rfl
      · rw [if_pos (by simp [h3])]
        exact Or.inl rfl
    · rw [if_pos (by simp [h2])]
      exact Or.inl rfl
  · rw [if_pos (by simp [h1])]
    exact Or.inl rfl

theorem spliceAt_length (raw : List Nat) (a : Nat) (repl : List Nat)
    (h : a + repl.length ≤ raw.length) :
    (spliceAt raw a repl).length = raw.length := by
  unfold spliceAt
  simp only [List.length_append, List.length_take, List.length_drop]
  omega

theorem applyLoop_length (v : Bool) (l : List Nat) (blob : List Nat) :
    (applyLoop v l blob).1.length = blob.length := by
  induction l generalizing blob with
  | nil => rfl
  | cons fid rest ih =>
    unfold applyLoop
    rcases hsf : set_flag blob fid v with e | blob'
    · exact ih blob
    · have hl := set_flag_length blob blob' fid v hsf
      simpa [hl] using ih blob'

theorem applyChangesLoop_length (l : List (Nat × Bool)) (blob blob1 : List Nat)
    (h : (applyChangesLoop l blob).1 = .ok blob1) :
    blob1.length = blob.length := by
  induction l generalizing blob with
  | nil =>
    unfold applyChangesLoop at h
    cases h
    rfl
  | cons p rest ih =>
    unfold applyChangesLoop at h
    rcases hsf : set_flag blob p.1 p.2 with e | blob'
    · rw [hsf] at h
      cases h
    · rw [hsf] at h
      have hl := set_flag_length blob blob' p.1 p.2 hsf
      rw [← hl]
      exact ih blob' h

theorem set_flag_ok_of_lt (blob : List Nat) (fid : Nat) (v : Bool)
    (h : byteOffset fid < blob.length) :
    set_flag blob fid v = .ok (blob.set (byteOffset fid)
      (setBitTo (blob.getD (byteOffset fid) 0) (bitIndex fid) v)) := by
  unfold set_flag
  rw [if_pos h]

theorem applyChangesLoop_ok (l : List (Nat × Bool)) (blob : List Nat)
    (h : ∀ p ∈ l, byteOffset p.1 < blob.length) :
    ∃ blob1, applyChangesLoop l blob = (.ok blob1, l.length) ∧
      blob1.length = blob.length := by
  induction l generalizing blob with
  | nil => exact ⟨blob, rfl, rfl⟩
  | cons p rest ih =>
    have hp : byteOffset p.1 < blob.length := h p (List.mem_cons_self p rest)
    have hsf := set_flag_ok_of_lt blob p.1 p.2 hp
    set blob' := blob.set (byteOffset p.1)
      (setBitTo (blob.getD (byteOffset p.1) 0) (bitIndex p.1) p.2) with hb'
    have hlen : blob'.length = blob.length := by simp [hb']
    rcases ih blob' (fun q hq => by
      rw [hlen]
      exact h q (List.mem_cons_of_mem p hq)) with ⟨blob1, hrun, hlen1⟩
    refine ⟨blob1, ?_, by rw [hlen1, hlen]⟩
    show applyChangesLoop (p :: rest) blob = (.ok blob1, rest.length + 1)
    obtain ⟨fid, v⟩ := p
    unfold applyChangesLoop
    rw [hsf]
    simp [hrun]

theorem changeNeeded_inRange (blob : List Nat) (p : Nat × Bool)
    (h : changeNeeded blob p = true) : byteOffset p.1 < blob.length := by
  unfold changeNeeded at h
  by_cases hr : byteOffset p.1 < blob.length
  · exact hr
  · unfold get_flag at h
    rw [if_neg hr] at h
    simp at h

theorem mem_computeChanges_inRange (blob : List Nat)
    (requested : List (Nat × Bool)) (p : Nat × Bool)
    (h : p ∈ computeChanges blob requested) : byteOffset p.1 < blob.length := by
  unfold computeChanges at h
  exact changeNeeded_inRange blob p (List.of_mem_filter h)

theorem computeChanges_loop_ok (blob : List Nat)
    (requested : List (Nat × Bool)) :
    ∃ blob1, applyChangesLoop (computeChanges blob requested) blob
        = (.ok blob1, (computeChanges blob requested).length) ∧
      blob1.length = blob.length :=
  applyChangesLoop_ok (computeChanges blob requested) blob
    (fun p hp => mem_computeChanges_inRange blob requested p hp)

theorem writeBackStep_eq (save : SaveFile) (slotIdx : Nat) (blob : List Nat)
    (off : Int)
    (hoff : (save.characters.getD slotIdx default).eventFlagsOffset = some off)
    (hpos : 0 ≤ off) (hso : slotIdx < save.slotOffsets.length) :
    writeBackStep save slotIdx blob
      = .ok ({ save with rawData := spliceAt save.rawData (save.slotOffsets.getD slotIdx 0 + 0x10 + off.toNat) blob }, true) := by
  unfold writeBackStep
  rw [hoff]
  dsimp only
  rw [if_pos hpos]
  rw [dif_pos hso]
  rw [List.get_eq_getElem, List.getD_eq_getElem _ _ hso]

theorem writeBackStep_spec (save save1 : SaveFile) (slotIdx : Nat)
    (blob : List Nat) (wb : Bool)
    (h : writeBackStep save slotIdx blob = .ok (save1, wb)) :
    save1 = save ∨
      (∃ off, (save.characters.getD slotIdx default).eventFlagsOffset = some off
        ∧ 0 ≤ off ∧ slotIdx < save.slotOffsets.length ∧
        save1 = { save with rawData := spliceAt save.rawData (save.slotOffsets.getD slotIdx 0 + 0x10 + off.toNat) blob }) := by
  unfold writeBackStep at h
  rcases hoff : (save.characters.getD slotIdx default).eventFlagsOffset
      with _ | off
  · rw [hoff] at h
    cases h
    exact Or.inl rfl
  · rw [hoff] at h
    dsimp only at h
    by_cases hpos : (0 : Int) ≤ off
    · rw [if_pos hpos] at h
      by_cases hso : slotIdx < save.slotOffsets.length
      · rw [dif_pos hso] at h
        cases h
        refine Or.inr ⟨off, rfl, hpos, hso, ?_⟩
        rw [List.get_eq_getElem, List.getD_eq_getElem _ _ hso]
      · rw [dif_neg hso] at h
        cases h
    · rw [if_neg hpos] at h
      cases h
      exact Or.inl rfl

theorem recalcOrder_bT (bT : List Event)
    (hbT : bT = [Event.backup] ∨ bT = []) (r : List Event) (p : Bool)
    (h : recalcOrder r p = true) : recalcOrder (bT ++ r) p = true := by
  rcases hbT with rfl | rfl
  · simpa [recalcOrder] using h
  · simpa using h

theorem recalcOrder_replicate_append (k : Nat) (r : List Event) (p : Bool) :
    recalcOrder (List.replicate k Event.mutate ++ r) p
      = recalcOrder r (p || decide (0 < k)) := by
  induction k generalizing p with
  | zero => simp
  | succ n ih =>
    rw [List.replicate_succ, List.cons_append]
    show recalcOrder (List.replicate n Event.mutate ++ r) true = _
    rw [ih true]
    simp

theorem recalcOrder_replicate (k : Nat) (p : Bool) :
    recalcOrder (List.replicate k Event.mutate) p = true := by
  have h := recalcOrder_replicate_append k [] p
  rw [List.append_nil] at h
  rw [h]
  rfl

/-- C3: every mutation path calls `recalculate_checksums` between its last
buffer mutation and any write of the file: scanning any path's event trace,
no write occurs while a mutation is pending since the last recalculation. -/
theorem C3_recalc_before_serialize (recalc : List Nat → List Nat)
    (applyPreset : SaveFile → Option SaveFile) (save : SaveFile)
    (slotIdx : Nat) (blob : List Nat) (flagIds : List Nat)
    (requested : List (Nat × Bool))
    (state confirmed savePath ioFail : Bool)
    (hasPreset havePresetData haveCharacter : Bool) (disk : Disk) :
    recalcOrder (applyAdvancedFlags recalc save slotIdx blob flagIds state
      confirmed savePath ioFail disk).trace false = true ∧
    recalcOrder (applyChanges recalc save slotIdx blob requested confirmed
      savePath ioFail disk).trace false = true ∧
    recalcOrder (applyCurrentPreset recalc applyPreset save hasPreset
      confirmed havePresetData haveCharacter savePath ioFail disk).trace false
      = true := by
  refine ⟨?_, ?_, ?_⟩
  · rcases adv_cases recalc save slotIdx blob flagIds state confirmed savePath
        ioFail disk with
      h | ⟨disk1, bT, ⟨-, -, rfl⟩ | ⟨-, -, rfl⟩,
        h | ⟨save1, wb, -, ⟨-, h⟩ | ⟨-, h⟩⟩⟩ <;>
      rw [h] <;>
      first
        | rfl
        | (cases wb <;>
            simp [recalcOrder, recalcOrder_replicate,
              recalcOrder_replicate_append, List.append_assoc])
        | simp [recalcOrder, recalcOrder_replicate,
            recalcOrder_replicate_append, List.append_assoc]
  · rcases ch_cases recalc save slotIdx blob requested confirmed savePath
        ioFail disk with
      h | ⟨disk1, bT, ⟨-, -, rfl⟩ | ⟨-, -, rfl⟩,
        h | ⟨blob1, save1, wb, -, -, ⟨-, h⟩ | ⟨-, h⟩⟩⟩ <;>
      rw [h] <;>
      first
        | rfl
        | (cases wb <;>
            simp [recalcOrder, recalcOrder_replicate,
              recalcOrder_replicate_append, List.append_assoc])
        | simp [recalcOrder, recalcOrder_replicate,
            recalcOrder_replicate_append, List.append_assoc]
  · rcases preset_cases recalc applyPreset save hasPreset confirmed
        havePresetData haveCharacter savePath ioFail disk with
      h | ⟨disk1, bT, ⟨-, -, rfl⟩ | ⟨-, -, rfl⟩,
        h | ⟨save1, -, ⟨-, h⟩ | ⟨-, h⟩⟩⟩ <;>
      rw [h] <;> rfl

theorem backupOrder_replicate (k : Nat) (p : Bool) :
    backupOrder (List.replicate k Event.mutate) p = true := by
  induction k with
  | zero => rfl
  | succ n ih =>
    rw [List.replicate_succ]
    exact ih

/-- The advanced-flags path obeys backup-before-write. -/
theorem adv_backup_spec (recalc : List Nat → List Nat) (save : SaveFile)
    (slotIdx : Nat) (blob : List Nat) (flagIds : List Nat)
    (state confirmed savePath ioFail : Bool) (disk : Disk) :
    backupOrder (applyAdvancedFlags recalc save slotIdx blob flagIds state
      confirmed savePath ioFail disk).trace false = true ∧
    ((applyAdvancedFlags recalc save slotIdx blob flagIds state confirmed
        savePath ioFail disk).disk.file ≠ disk.file →
      ∃ b, disk.file = some b ∧
        b ∈ (applyAdvancedFlags recalc save slotIdx blob flagIds state
          confirmed savePath ioFail disk).disk.backups) ∧
    (savePath = true → create_backup disk ioFail = .error () →
      (applyAdvancedFlags recalc save slotIdx blob flagIds state confirmed
        savePath ioFail disk).disk = disk) := by
  rcases adv_cases recalc save slotIdx blob flagIds state confirmed savePath
      ioFail disk with
    h | ⟨disk1, bT, ⟨hsp1, hcb, rfl⟩ | ⟨hsp1, rfl, rfl⟩,
      h | ⟨save1, wb, hwb, ⟨hsp, h⟩ | ⟨hsp, h⟩⟩⟩
  · rw [h]
    exact ⟨rfl, fun hne => absurd rfl hne, fun _ _ => rfl⟩
  · rcases create_backup_ok disk disk1 ioFail hcb with ⟨hio, b, hbfile, rfl⟩
    rw [h]
    refine ⟨backupOrder_of_seen _, ?_, ?_⟩
    · intro hne
      exact absurd hbfile.symm hne
    · intro _ hcberr
      rw [hcberr] at hcb
      cases hcb
  · rw [hsp1] at hsp
    cases hsp
  · rcases create_backup_ok disk disk1 ioFail hcb with ⟨hio, b, hbfile, rfl⟩
    rw [h]
    refine ⟨backupOrder_of_seen _, ?_, ?_⟩
    · intro _
      exact ⟨b, hbfile, List.mem_cons_self b disk.backups⟩
    · intro _ hcberr
      rw [hcberr] at hcb
      cases hcb
  · rw [h]
    refine ⟨?_, fun hne => absurd rfl hne, ?_⟩
    · exact backupOrder_replicate _ _
    · intro hsp
      rw [hsp1] at hsp
      cases hsp
  · rw [h]
    refine ⟨?_, fun hne => absurd rfl hne, ?_⟩
    · cases wb <;>
        simp [backupOrder, backupOrder_replicate_mutate, backupOrder_replicate,
          List.append_assoc]
    · intro hsp
      rw [hsp1] at hsp
      cases hsp
  · rw [hsp1] at hsp
    cases hsp

/-- The apply-changes path obeys backup-before-write. -/
theorem ch_backup_spec (recalc : List Nat → List Nat) (save : SaveFile)
    (slotIdx : Nat) (blob : List Nat) (requested : List (Nat × Bool))
    (confirmed savePath ioFail : Bool) (disk : Disk) :
    backupOrder (applyChanges recalc save slotIdx blob requested confirmed
      savePath ioFail disk).trace false = true ∧
    ((applyChanges recalc save slotIdx blob requested confirmed savePath
        ioFail disk).disk.file ≠ disk.file →
      ∃ b, disk.file = some b ∧
        b ∈ (applyChanges recalc save slotIdx blob requested confirmed
          savePath ioFail disk).disk.backups) ∧
    (savePath = true → create_backup disk ioFail = .error () →
      (applyChanges recalc save slotIdx blob requested confirmed savePath
        ioFail disk).disk = disk) := by
  rcases ch_cases recalc save slotIdx blob requested confirmed savePath
      ioFail disk with
    h | ⟨disk1, bT, ⟨hsp1, hcb, rfl⟩ | ⟨hsp1, rfl, rfl⟩,
      h | ⟨blob1, save1, wb, hlp, hwb, ⟨hsp, h⟩ | ⟨hsp, h⟩⟩⟩
  · rw [h]
    exact ⟨rfl, fun hne => absurd rfl hne, fun _ _ => rfl⟩
  · rcases create_backup_ok disk disk1 ioFail hcb with ⟨hio, b, hbfile, rfl⟩
    rw [h]
    refine ⟨backupOrder_of_seen _, ?_, ?_⟩
    · intro hne
      exact absurd hbfile.symm hne
    · intro _ hcberr
      rw [hcberr] at hcb
      cases hcb
  · rw [hsp1] at hsp
    cases hsp
  · rcases create_backup_ok disk disk1 ioFail hcb with ⟨hio, b, hbfile, rfl⟩
    rw [h]
    refine ⟨backupOrder_of_seen _, ?_, ?_⟩
    · intro _
      exact ⟨b, hbfile, List.mem_cons_self b disk.backups⟩
    · intro _ hcberr
      rw [hcberr] at hcb
      cases hcb
  · rw [h]
    refine ⟨?_, fun hne => absurd rfl hne, ?_⟩
    · exact backupOrder_replicate _ _
    · intro hsp
      rw [hsp1] at hsp
      cases hsp
  · rw [h]
    refine ⟨?_, fun hne => absurd rfl hne, ?_⟩
    · cases wb <;>
        simp [backupOrder, backupOrder_replicate_mutate, backupOrder_replicate,
          List.append_assoc]
    · intro hsp
      rw [hsp1] at hsp
      cases hsp
  · rw [hsp1] at hsp
    cases hsp

/-- The preset path obeys backup-before-write. -/
theorem preset_backup_spec (recalc : List Nat → List Nat)
    (applyPreset : SaveFile → Option SaveFile) (save : SaveFile)
    (hasPreset confirmed havePresetData haveCharacter savePath ioFail : Bool)
    (disk : Disk) :
    backupOrder (applyCurrentPreset recalc applyPreset save hasPreset
      confirmed havePresetData haveCharacter savePath ioFail disk).trace false
      = true ∧
    ((applyCurrentPreset recalc applyPreset save hasPreset confirmed
        havePresetData haveCharacter savePath ioFail disk).disk.file
        ≠ disk.file →
      ∃ b, disk.file = some b ∧
        b ∈ (applyCurrentPreset recalc applyPreset save hasPreset confirmed
          havePresetData haveCharacter savePath ioFail disk).disk.backups) ∧
    (savePath = true → create_backup disk ioFail = .error () →
      (applyCurrentPreset recalc applyPreset save hasPreset confirmed
        havePresetData haveCharacter savePath ioFail disk).disk = disk) := by
  rcases preset_cases recalc applyPreset save hasPreset confirmed
      havePresetData haveCharacter savePath ioFail disk with
    h | ⟨disk1, bT, ⟨hsp1, hcb, rfl⟩ | ⟨hsp1, rfl, rfl⟩,
      h | ⟨save1, hap, ⟨hsp, h⟩ | ⟨hsp, h⟩⟩⟩
  · rw [h]
    exact ⟨rfl, fun hne => absurd rfl hne, fun _ _ => rfl⟩
  · rcases create_backup_ok disk disk1 ioFail hcb with ⟨hio, b, hbfile, rfl⟩
    rw [h]
    refine ⟨backupOrder_of_seen _, ?_, ?_⟩
    · intro hne
      exact absurd hbfile.symm hne
    · intro _ hcberr
      rw [hcberr] at hcb
      cases hcb
  · rw [hsp1] at hsp
    cases hsp
  · rcases create_backup_ok disk disk1 ioFail hcb with ⟨hio, b, hbfile, rfl⟩
    rw [h]
    refine ⟨backupOrder_of_seen _, ?_, ?_⟩
    · intro _
      exact ⟨b, hbfile, List.mem_cons_self b disk.backups⟩
    · intro _ hcberr
      rw [hcberr] at hcb
      cases hcb
  · rw [h]
    refine ⟨rfl, fun hne => absurd rfl hne, ?_⟩
    intro hsp
    rw [hsp1] at hsp
    cases hsp
  · rw [h]
    refine ⟨rfl, fun hne => absurd rfl hne, ?_⟩
    · intro hsp
      rw [hsp1] at hsp
      cases hsp
  · rw [hsp1] at hsp
    cases hsp



/-- C1: on each of the three mutation paths (advanced flag edit, apply
changes, apply community preset), every write of the save file is preceded by
a successful backup in the path's trace; when the on-disk file changed, its
pre-call bytes are stored in the backup store; and when the backup step
fails, the path aborts with the on-disk file unchanged. -/
theorem C1_backup_before_write (recalc : List Nat → List Nat)
    (applyPreset : SaveFile → Option SaveFile) (save : SaveFile)
    (slotIdx : Nat) (blob : List Nat) (flagIds : List Nat)
    (requested : List (Nat × Bool)) (state confirmed savePath ioFail : Bool)
    (hasPreset havePresetData haveCharacter : Bool) (disk : Disk) :
    (backupOrder (applyAdvancedFlags recalc save slotIdx blob flagIds state
        confirmed savePath ioFail disk).trace false = true ∧
      ((applyAdvancedFlags recalc save slotIdx blob flagIds state confirmed
          savePath ioFail disk).disk.file ≠ disk.file →
        ∃ b, disk.file = some b ∧
          b ∈ (applyAdvancedFlags recalc save slotIdx blob flagIds state
            confirmed savePath ioFail disk).disk.backups) ∧
      (savePath = true → create_backup disk ioFail = .error () →
        (applyAdvancedFlags recalc save slotIdx blob flagIds state confirmed
          savePath ioFail disk).disk = disk)) ∧
    (backupOrder (applyChanges recalc save slotIdx blob requested confirmed
        savePath ioFail disk).trace false = true ∧
      ((applyChanges recalc save slotIdx blob requested confirmed savePath
          ioFail disk).disk.file ≠ disk.file →
        ∃ b, disk.file = some b ∧
          b ∈ (applyChanges recalc save slotIdx blob requested confirmed
            savePath ioFail disk).disk.backups) ∧
      (savePath = true → create_backup disk ioFail = .error () →
        (applyChanges recalc save slotIdx blob requested confirmed savePath
          ioFail disk).disk = disk)) ∧
    (backupOrder (applyCurrentPreset recalc applyPreset save hasPreset
        confirmed havePresetData haveCharacter savePath ioFail disk).trace
        false = true ∧
      ((applyCurrentPreset recalc applyPreset save hasPreset confirmed
          havePresetData haveCharacter savePath ioFail disk).disk.file
          ≠ disk.file →
        ∃ b, disk.file = some b ∧
          b ∈ (applyCurrentPreset recalc applyPreset save hasPreset confirmed
            havePresetData haveCharacter savePath ioFail disk).disk.backups) ∧
      (savePath = true → create_backup disk ioFail = .error () →
        (applyCurrentPreset recalc applyPreset save hasPreset confirmed
          havePresetData haveCharacter savePath ioFail disk).disk = disk)) :=
  ⟨adv_backup_spec recalc save slotIdx blob flagIds state confirmed savePath
      ioFail disk,
    ch_backup_spec recalc save slotIdx blob requested confirmed savePath
      ioFail disk,
    preset_backup_spec recalc applyPreset save hasPreset confirmed
      havePresetData haveCharacter savePath ioFail disk⟩

theorem C1_witness :
    (∃ b, (⟨some [9], []⟩ : Disk).file = some b ∧
      b ∈ (applyAdvancedFlags id ⟨List.replicate 18 0, [0], [⟨[0], some 0⟩]⟩
        0 [0] [0] true true true false ⟨some [9], []⟩).disk.backups) ∧
    (applyChanges id ⟨List.replicate 18 0, [0], [⟨[0], some 0⟩]⟩ 0 [0]
      [(0, true)] true true true ⟨none, []⟩).disk = ⟨none, []⟩ :=
  ⟨(C1_backup_before_write id some ⟨List.replicate 18 0, [0], [⟨[0], some 0⟩]⟩
      0 [0] [0] [] true true true false true true true
      ⟨some [9], []⟩).1.2.1 (by decide),
    (C1_backup_before_write id some ⟨List.replicate 18 0, [0], [⟨[0], some 0⟩]⟩
      0 [0] [0] [(0, true)] true true true true true true true
      ⟨none, []⟩).2.1.2.2 rfl (by rfl)⟩

theorem writeBackStep_length (save save1 : SaveFile) (slotIdx : Nat)
    (blob : List Nat) (wb : Bool)
    (h : writeBackStep save slotIdx blob = .ok (save1, wb))
    (hwf : ∀ off : Int,
      (save.characters.getD slotIdx default).eventFlagsOffset = some off →
      0 ≤ off →
      save.slotOffsets.getD slotIdx 0 + 0x10 + off.toNat + blob.length
        ≤ save.rawData.length) :
    save1.rawData.length = save.rawData.length := by
  rcases writeBackStep_spec save save1 slotIdx blob wb h with rfl | ⟨off, hoff, hpos, hso, rfl⟩
  · rfl
  · exact spliceAt_length _ _ _ (hwf off hoff hpos)

/-- C8: the raw buffer's length is invariant across every mutation path: all
writes are fixed-width in-place replacements, so for a well-formed save (the
slot's flag-blob window inside the buffer, checksum recomputation
length-preserving, preset application length-preserving) each path leaves
`raw_bytes` with the length it had at load time. -/
theorem C8_length_invariant (recalc : List Nat → List Nat)
    (applyPreset : SaveFile → Option SaveFile) (save : SaveFile)
    (slotIdx : Nat) (blob : List Nat) (flagIds : List Nat)
    (requested : List (Nat × Bool)) (state confirmed savePath ioFail : Bool)
    (hasPreset havePresetData haveCharacter : Bool) (disk : Disk)
    (hrec : ∀ b, (recalc b).length = b.length)
    (hwf : ∀ off : Int,
      (save.characters.getD slotIdx default).eventFlagsOffset = some off →
      0 ≤ off →
      save.slotOffsets.getD slotIdx 0 + 0x10 + off.toNat + blob.length
        ≤ save.rawData.length)
    (hpre : ∀ s1, applyPreset save = some s1 →
      s1.rawData.length = save.rawData.length) :
    (applyAdvancedFlags recalc save slotIdx blob flagIds state confirmed
      savePath ioFail disk).save.rawData.length = save.rawData.length ∧
    (applyChanges recalc save slotIdx blob requested confirmed savePath
      ioFail disk).save.rawData.length = save.rawData.length ∧
    (applyCurrentPreset recalc applyPreset save hasPreset confirmed
      havePresetData haveCharacter savePath ioFail disk).save.rawData.length
      = save.rawData.length := by
  refine ⟨?_, ?_, ?_⟩
  · rcases adv_cases recalc save slotIdx blob flagIds state confirmed savePath
        ioFail disk with
      h | ⟨disk1, bT, hbk, h | ⟨save1, wb, hwb, ⟨hsp, h⟩ | ⟨hsp, h⟩⟩⟩ <;>
      rw [h]
    all_goals {
      show (recalc save1.rawData).length = save.rawData.length
      rw [hrec save1.rawData]
      refine writeBackStep_length save save1 slotIdx _ wb hwb ?_
      intro off hoff hpos
      rw [applyLoop_length state (sortNat flagIds.dedup) blob]
      exact hwf off hoff hpos }
  · rcases ch_cases recalc save slotIdx blob requested confirmed savePath
        ioFail disk with
      h | ⟨disk1, bT, hbk, h | ⟨blob1, save1, wb, hlp, hwb,
        ⟨hsp, h⟩ | ⟨hsp, h⟩⟩⟩ <;>
      rw [h]
    all_goals {
      show (recalc save1.rawData).length = save.rawData.length
      rw [hrec save1.rawData]
      refine writeBackStep_length save save1 slotIdx blob1 wb hwb ?_
      intro off hoff hpos
      rw [applyChangesLoop_length (computeChanges blob requested) blob blob1 hlp]
      exact hwf off hoff hpos }
  · rcases preset_cases recalc applyPreset save hasPreset confirmed
        havePresetData haveCharacter savePath ioFail disk with
      h | ⟨disk1, bT, hbk, h | ⟨save1, hap, ⟨hsp, h⟩ | ⟨hsp, h⟩⟩⟩ <;>
      rw [h]
    all_goals {
      show (recalc save1.rawData).length = save.rawData.length
      rw [hrec save1.rawData]
      exact hpre save1 hap }

theorem C8_witness :
    (applyAdvancedFlags id ⟨List.replicate 18 0, [0], [⟨[0], some 0⟩]⟩ 0 [0]
      [0] true true true false ⟨some [9], []⟩).save.rawData.length
      = (List.replicate 18 0).length ∧
    (applyChanges id ⟨List.replicate 18 0, [0], [⟨[0], some 0⟩]⟩ 0 [0]
      [(0, true)] true true false ⟨some [9], []⟩).save.rawData.length
      = (List.replicate 18 0).length ∧
    (applyCurrentPreset id some ⟨List.replicate 18 0, [0], [⟨[0], some 0⟩]⟩
      true true true true true false ⟨some [9], []⟩).save.rawData.length
      = (List.replicate 18 0).length :=
  C8_length_invariant id some ⟨List.replicate 18 0, [0], [⟨[0], some 0⟩]⟩ 0
    [0] [0] [(0, true)] true true true false true true true ⟨some [9], []⟩
    (fun b => rfl)
    (by
      intro off hoff hpos
      cases hoff
      decide)
    (fun s1 h => by
      cases h
      rfl)

/-- C10: `apply_changes` keeps exactly the requested pairs whose stored value
reads successfully and differs from the requested value (a failing read
excludes the pair), and an empty change set makes the whole operation return
before any backup, buffer mutation, or file write. -/
theorem C10_change_set (recalc : List Nat → List Nat) (save : SaveFile)
    (slotIdx : Nat) (blob : List Nat) (requested : List (Nat × Bool))
    (confirmed savePath ioFail : Bool) (disk : Disk) :
    (∀ p, p ∈ computeChanges blob requested ↔
      p ∈ requested ∧ ∃ cur, get_flag blob p.1 = .ok cur ∧ cur ≠ p.2) ∧
    (computeChanges blob requested = [] →
      applyChanges recalc save slotIdx blob requested confirmed savePath
        ioFail disk = ⟨save, disk, [], none⟩) := by
  constructor
  · intro p
    unfold computeChanges
    rw [List.mem_filter]
    constructor
    · rintro ⟨hmem, hcn⟩
      refine ⟨hmem, ?_⟩
      unfold changeNeeded at hcn
      rcases hg : get_flag blob p.1 with e | cur
      · rw [hg] at hcn
        cases hcn
      · rw [hg] at hcn
        refine ⟨cur, rfl, ?_⟩
        simpa using hcn
    · rintro ⟨hmem, cur, hg, hne⟩
      refine ⟨hmem, ?_⟩
      unfold changeNeeded
      rw [hg]
      simpa using hne
  · intro hempty
    unfold applyChanges
    by_cases h1 : requested = []
    · rw [if_pos h1]
    · rw [if_neg h1]
      by_cases h2 : save.characters.length ≤ slotIdx
      · rw [if_pos h2]
      · rw [if_neg h2]
        rw [if_pos hempty]

theorem C10_witness :
    (((7, true) ∈ computeChanges [0] [(7, true), (3, false), (99, true)] ↔
      (7, true) ∈ [(7, true), (3, false), (99, true)] ∧
        ∃ cur, get_flag [0] 7 = .ok cur ∧ cur ≠ true) ∧
      (computeChanges [0] [(7, true), (3, false), (99, true)] = [] →
        applyChanges id ⟨List.replicate 18 0, [0], [⟨[0], some 0⟩]⟩ 0 [0]
          [(7, true), (3, false), (99, true)] true true false
          ⟨some [9], []⟩ = ⟨⟨List.replicate 18 0, [0], [⟨[0], some 0⟩]⟩,
            ⟨some [9], []⟩, [], none⟩)) ∧
    applyChanges id ⟨List.replicate 18 0, [0], [⟨[0], some 0⟩]⟩ 0 [0]
      [(3, false), (99, true)] true true false ⟨some [9], []⟩
      = ⟨⟨List.replicate 18 0, [0], [⟨[0], some 0⟩]⟩, ⟨some [9], []⟩, [],
          none⟩ :=
  ⟨⟨(C10_change_set id ⟨List.replicate 18 0, [0], [⟨[0], some 0⟩]⟩ 0 [0]
      [(7, true), (3, false), (99, true)] true true false
      ⟨some [9], []⟩).1 (7, true),
    (C10_change_set id ⟨List.replicate 18 0, [0], [⟨[0], some 0⟩]⟩ 0 [0]
      [(7, true), (3, false), (99, true)] true true false
      ⟨some [9], []⟩).2⟩,
    (C10_change_set id ⟨List.replicate 18 0, [0], [⟨[0], some 0⟩]⟩ 0 [0]
      [(3, false), (99, true)] true true false ⟨some [9], []⟩).2 (by decide)⟩

/-- C2 counterexample: with a slot recording `event_flags_offset = -1`, the
apply-changes path mutates the blob copy (flag 0 set, copy becomes `[1]`) yet
skips the write-back, so the serialized file equals the untouched raw buffer
and differs from the buffer the claim requires (copy spliced in at
`slot_offset + 0x10 + event_flags_offset = 15`). -/
theorem C2_counterexample :
    (applyChangesLoop (computeChanges [0] [(0, true)]) [0]).1
        = .ok [1] ∧
    (applyChanges id ⟨List.replicate 32 0, [0], [⟨[0], some (-1)⟩]⟩ 0 [0]
      [(0, true)] true true false ⟨some (List.replicate 32 0), []⟩).disk.file
      = some (List.replicate 32 0) ∧
    some (List.replicate 32 0)
      ≠ some (spliceAt (List.replicate 32 0) 15 [1]) := by
  refine ⟨by rfl, by decide, by decide⟩

/-- C2 (amended): on both flag-mutation paths, provided the slot records a
nonnegative `event_flags_offset` (with the slot and offset table in range and
the backup succeeding), the fully mutated blob copy is spliced into the raw
buffer at `slot_offset + 0x10 + event_flags_offset` before the whole-file
serialize — the written file is exactly `recalc` of that spliced buffer — and
the splice replaces exactly `len(blob)` bytes. -/
theorem C2_amended_writeback (recalc : List Nat → List Nat) (save : SaveFile)
    (slotIdx : Nat) (blob : List Nat) (flagIds : List Nat)
    (requested : List (Nat × Bool)) (state ioFail : Bool) (disk disk1 : Disk)
    (off : Int)
    (hoff : (save.characters.getD slotIdx default).eventFlagsOffset = some off)
    (hpos : 0 ≤ off) (hso : slotIdx < save.slotOffsets.length)
    (hslot : slotIdx < save.characters.length)
    (hcb : create_backup disk ioFail = .ok disk1)
    (hbound : save.slotOffsets.getD slotIdx 0 + 0x10 + off.toNat + blob.length
      ≤ save.rawData.length) :
    (flagIds ≠ [] →
      (applyAdvancedFlags recalc save slotIdx blob flagIds state true true
          ioFail disk).disk.file
        = some (recalc (spliceAt save.rawData
            (save.slotOffsets.getD slotIdx 0 + 0x10 + off.toNat)
            (applyLoop state (sortNat flagIds.dedup) blob).1)) ∧
      (applyLoop state (sortNat flagIds.dedup) blob).1.length = blob.length ∧
      (spliceAt save.rawData
          (save.slotOffsets.getD slotIdx 0 + 0x10 + off.toNat)
          (applyLoop state (sortNat flagIds.dedup) blob).1).length
        = save.rawData.length) ∧
    (requested ≠ [] → computeChanges blob requested ≠ [] →
      ∃ blob1, (applyChangesLoop (computeChanges blob requested) blob).1
          = .ok blob1 ∧
        blob1.length = blob.length ∧
        (applyChanges recalc save slotIdx blob requested true true ioFail
            disk).disk.file
          = some (recalc (spliceAt save.rawData
              (save.slotOffsets.getD slotIdx 0 + 0x10 + off.toNat) blob1)) ∧
        (spliceAt save.rawData
            (save.slotOffsets.getD slotIdx 0 + 0x10 + off.toNat)
            blob1).length = save.rawData.length) := by
  constructor
  · intro hne
    refine ⟨?_, applyLoop_length state (sortNat flagIds.dedup) blob, ?_⟩
    · unfold applyAdvancedFlags
      rw [if_neg hne, if_neg (by omega), if_neg (by simp)]
      simp only [cond_true, hcb]
      rw [writeBackStep_eq save slotIdx _ off hoff hpos hso]
      rfl
    · refine spliceAt_length _ _ _ ?_
      rw [applyLoop_length state (sortNat flagIds.dedup) blob]
      exact hbound
  · intro hne hchne
    rcases computeChanges_loop_ok blob requested with ⟨blob1, hrun, hlen⟩
    have hrun1 : (applyChangesLoop (computeChanges blob requested) blob).1
        = .ok blob1 := by rw [hrun]
    refine ⟨blob1, hrun1, hlen, ?_, ?_⟩
    · unfold applyChanges
      rw [if_neg hne, if_neg (by omega), if_neg hchne, if_neg (by simp)]
      simp only [cond_true, hcb, hrun1]
      rw [writeBackStep_eq save slotIdx blob1 off hoff hpos hso]
      rfl
    · refine spliceAt_length _ _ _ ?_
      rw [hlen]
      exact hbound



theorem C2_amended_witness :
    (applyChanges id ⟨List.replicate 18 0, [0], [⟨[0], some 0⟩]⟩ 0 [0]
      [(0, true)] true true false ⟨some [9], []⟩).disk.file
      = some (spliceAt (List.replicate 18 0) 16 [1]) := by
  rcases (C2_amended_writeback id
      ⟨List.replicate 18 0, [0], [⟨[0], some 0⟩]⟩ 0 [0] [0] [(0, true)] true
      false ⟨some [9], []⟩ ⟨some [9], [[9]]⟩ 0 (by decide) (by decide)
      (by decide) (by decide) (by rfl) (by decide)).2 (by decide) (by decide)
    with ⟨blob1, hrun, hlen, hfile, hsplen⟩
  have hb : (Except.ok blob1 : Except CodecError (List Nat)) = .ok [1] :=
    hrun.symm.trans (by rfl)
  cases hb
  exact hfile

theorem set_flag_error_of_ge (blob : List Nat) (fid : Nat) (v : Bool)
    (h : ¬ byteOffset fid < blob.length) :
    set_flag blob fid v = .error .outOfRange := by
  unfold set_flag
  rw [if_neg h]

theorem applyLoop_get_stable (v : Bool) (l : List Nat) :
    ∀ (blob : List Nat) (fid : Nat), get_flag blob fid = .ok v →
      get_flag (applyLoop v l blob).1 fid = .ok v := by
  induction l with
  | nil => intro blob fid h; exact h
  | cons gid rest ih =>
    intro blob fid h
    unfold applyLoop
    rcases hsf : set_flag blob gid v with e | blob'
    · exact ih blob fid h
    · by_cases he : fid = gid
      · subst he
        exact ih blob' fid (get_flag_set_flag_same blob blob' fid v hsf)
      · refine ih blob' fid ?_
        rw [get_flag_set_flag_other blob blob' gid fid v he hsf]
        exact h

theorem applyLoop_count (v : Bool) (l : List Nat) :
    ∀ blob : List Nat, (applyLoop v l blob).2
      = l.countP (fun fid => decide (byteOffset fid < blob.length)) := by
  induction l with
  | nil => intro blob; rfl
  | cons fid rest ih =>
    intro blob
    unfold applyLoop
    rcases hsf : set_flag blob fid v with e | blob'
    · have hr : ¬ byteOffset fid < blob.length := by
        intro hlt
        rw [set_flag_ok_of_lt blob fid v hlt] at hsf
        cases hsf
      rw [ih blob, List.countP_cons]
      simp [hr]
    · have hr : byteOffset fid < blob.length := by
        by_contra hr
        rw [set_flag_error_of_ge blob fid v hr] at hsf
        cases hsf
      have hl := set_flag_length blob blob' fid v hsf
      have := ih blob'
      rw [hl] at this
      rw [List.countP_cons]
      simp [hr, this]

theorem applyLoop_value (v : Bool) (l : List Nat) :
    ∀ (blob : List Nat) (fid : Nat), fid ∈ l →
      byteOffset fid < blob.length →
      get_flag (applyLoop v l blob).1 fid = .ok v := by
  induction l with
  | nil => intro blob fid hmem; cases hmem
  | cons gid rest ih =>
    intro blob fid hmem hr
    unfold applyLoop
    rcases hsf : set_flag blob gid v with e | blob'
    · rcases List.mem_cons.mp hmem with rfl | hmem'
      · rw [set_flag_ok_of_lt blob fid v hr] at hsf
        cases hsf
      · exact ih blob fid hmem' hr
    · rcases List.mem_cons.mp hmem with rfl | hmem'
      · exact applyLoop_get_stable v rest blob' fid
          (get_flag_set_flag_same blob blob' fid v hsf)
      · have hl := set_flag_length blob blob' gid v hsf
        exact ih blob' fid hmem' (by rw [hl]; exact hr)

/-- C4 counterexample: the `apply_changes` application loop has no per-flag
guard — on the batch `[(100, set), (0, set)]` over a one-byte blob it aborts
at the out-of-range flag 100 with zero flags applied, leaving the valid flag
0 unset, instead of continuing and reporting an aggregate count. -/
theorem C4_counterexample :
    applyChangesLoop [(100, true), (0, true)] [0] = (.error .outOfRange, 0) ∧
    get_flag [0] 0 = .ok false :=
  ⟨by rfl, by rfl⟩

/-- C4 (amended): the advanced-editor batch loop continues past per-flag
errors, applying every in-range flag and counting exactly the in-range ones,
and the path reports that success count together with the requested total;
the `apply_changes` loop has no per-flag guard and would abort on an error,
but its change set is pre-filtered by a successful `get_flag`, so the batch
always completes with every change applied and the path reports the
change-set size. -/
theorem C4_amended_batch :
    (∀ (v : Bool) (fids blob : List Nat),
      (applyLoop v fids blob).2
          = fids.countP (fun fid => decide (byteOffset fid < blob.length)) ∧
      ∀ fid ∈ fids, byteOffset fid < blob.length →
        get_flag (applyLoop v fids blob).1 fid = .ok v) ∧
    (∀ (recalc : List Nat → List Nat) (save : SaveFile) (slotIdx : Nat)
      (blob flagIds : List Nat) (state confirmed savePath ioFail : Bool)
      (disk : Disk),
      (applyAdvancedFlags recalc save slotIdx blob flagIds state confirmed
        savePath ioFail disk).reported = none ∨
      (applyAdvancedFlags recalc save slotIdx blob flagIds state confirmed
        savePath ioFail disk).reported
        = some ((applyLoop state (sortNat flagIds.dedup) blob).2,
            flagIds.length)) ∧
    (∀ (blob : List Nat) (requested : List (Nat × Bool)),
      ∃ blob1, applyChangesLoop (computeChanges blob requested) blob
        = (.ok blob1, (computeChanges blob requested).length)) ∧
    (∀ (recalc : List Nat → List Nat) (save : SaveFile) (slotIdx : Nat)
      (blob : List Nat) (requested : List (Nat × Bool))
      (confirmed savePath ioFail : Bool) (disk : Disk),
      (applyChanges recalc save slotIdx blob requested confirmed savePath
        ioFail disk).reported = none ∨
      (applyChanges recalc save slotIdx blob requested confirmed savePath
        ioFail disk).reported = some (computeChanges blob requested).length) := by
  refine ⟨?_, ?_, ?_, ?_⟩
  · intro v fids blob
    exact ⟨applyLoop_count v fids blob, fun fid hmem hr =>
      applyLoop_value v fids blob fid hmem hr⟩
  · intro recalc save slotIdx blob flagIds state confirmed savePath ioFail disk
    rcases adv_cases recalc save slotIdx blob flagIds state confirmed savePath
        ioFail disk with
      h | ⟨disk1, bT, hbk, h | ⟨save1, wb, hwb, ⟨hsp, h⟩ | ⟨hsp, h⟩⟩⟩ <;>
      rw [h]
    · exact Or.inl rfl
    · exact Or.inl rfl
    · exact Or.inl rfl
    · exact Or.inr rfl
  · intro blob requested
    rcases computeChanges_loop_ok blob requested with ⟨blob1, hrun, -⟩
    exact ⟨blob1, hrun⟩
  · intro recalc save slotIdx blob requested confirmed savePath ioFail disk
    rcases ch_cases recalc save slotIdx blob requested confirmed savePath
        ioFail disk with
      h | ⟨disk1, bT, hbk, h | ⟨blob1, save1, wb, hlp, hwb,
        ⟨hsp, h⟩ | ⟨hsp, h⟩⟩⟩ <;>
      rw [h]
    · exact Or.inl rfl
    · exact Or.inl rfl
    · exact Or.inl rfl
    · exact Or.inr rfl

theorem C4_amended_witness :
    get_flag (applyLoop true [100, 3] [0]).1 3 = .ok true ∧
    (applyLoop true [100, 3] [0]).2
      = List.countP (fun fid => decide (byteOffset fid < ([0] : List Nat).length))
          [100, 3] :=
  ⟨(C4_amended_batch.1 true [100, 3] [0]).2 3 (by decide) (by decide),
    (C4_amended_batch.1 true [100, 3] [0]).1⟩

end ERSave
